import Mathlib

/-!
# Verification of the climpred_workshop skill pipeline

This file embeds, in Lean 4, the computational content of the
`climpred_workshop` repository: three Jupyter notebooks that prepare
forecast/observation data (lead relabeling, calendar fixing, seasonal
rolling means) and call an external verification routine computing the
anomaly correlation coefficient (ACC) per lead.

The skill computation itself (`compute_skill`, named `HindcastEnsemble.verify`
/ `compute_metric` at the call sites) lives in the external `climpred`
library, not in this repository; it is modelled here from the repository's
specification (see the `Modelled from the spec:` doc comments).  The data
preparation steps (`decode_cf`, the lead relabeling, the seasonal rolling
mean and subsampling) are embedded directly from the notebook source.

Numeric values are modelled as exact rationals.  A Pearson correlation
coefficient `r = sxy / sqrt (sxx * syy)` is generally irrational, so a
skill value is represented by the constructor `SkillValue.corr num den`
standing for the real number `num / Real.sqrt den`; the theorems interpret
it through `Real.sqrt` explicitly.
-/

namespace ClimpredWorkshop

/-- Arithmetic mean of a list of rationals (`0` for the empty list, which the
callers below never hit on the paths where the mean matters). -/
def mean (xs : List ℚ) : ℚ := xs.sum / xs.length

/-- Deviations from the per-series means: each paired sample
`(f, o)` becomes `(f - mean fs, o - mean os)`. -/
def devs (ps : List (ℚ × ℚ)) : List (ℚ × ℚ) :=
  ps.map fun p => (p.1 - mean (ps.map Prod.fst), p.2 - mean (ps.map Prod.snd))

/-- Sum of squared deviations of the forecast series (numerator of its
variance; the `1/n` factor cancels in the correlation ratio). -/
def sxx (ps : List (ℚ × ℚ)) : ℚ := ((devs ps).map fun p => p.1 ^ 2).sum

/-- Sum of squared deviations of the observation series. -/
def syy (ps : List (ℚ × ℚ)) : ℚ := ((devs ps).map fun p => p.2 ^ 2).sum

/-- Sum of products of paired deviations (numerator of the covariance). -/
def sxy (ps : List (ℚ × ℚ)) : ℚ := ((devs ps).map fun p => p.1 * p.2).sum

/-- A skill entry: `nan` (undefined correlation), or `corr num den`
representing the real value `num / Real.sqrt den`. -/
inductive SkillValue : Type
  | nan : SkillValue
  | corr (num den : ℚ) : SkillValue
  deriving DecidableEq, Repr

/-- Modelled from the spec: Pearson correlation over the paired anomaly
samples at one lead, `r = cov(f,o) / (std(f) * std(o))`, with the standard
numeric convention that `r` is NaN when fewer than 2 paired samples exist
or either series has zero variance.  The value `corr sxy (sxx * syy)`
stands for `sxy / Real.sqrt (sxx * syy) = cov / (std f * std o)`. -/
def pearson (ps : List (ℚ × ℚ)) : SkillValue :=
  if ps.length < 2 then .nan
  else if sxx ps = 0 ∨ syy ps = 0 then .nan
  else .corr (sxy ps) (sxx ps * syy ps)

/-- Modelled from the spec: the forecast ensemble, a 3-axis numeric array
indexed by (initialization timestamp, lead offset, ensemble member), whose
lead axis is `0, 1, ..., nLead - 1` and carries a declared unit.
Timestamps are integers counting sampling steps of the lead unit. -/
structure Forecast : Type where
  inits : List ℤ
  nLead : ℕ
  nMember : ℕ
  leadUnits : String
  val : ℤ → ℕ → ℕ → ℚ

/-- Modelled from the spec: the observation series, a 1-axis numeric array
indexed by timestamp and sampled at a declared nominal frequency. -/
structure ObsSeries : Type where
  series : List (ℤ × ℚ)
  freq : String

/-- The enumerated set of lead units recognized by the verification
routine. -/
def allowedUnits : List String :=
  ["years", "seasons", "months", "weeks", "pentads", "days"]

/-- First value stored under a timestamp in an association list of
observations. -/
def lookupTime : List (ℤ × ℚ) → ℤ → Option ℚ
  | [], _ => none
  | p :: rest, t => if p.1 = t then some p.2 else lookupTime rest t

/-- Look up the observation value at a timestamp; `none` when no
observation exists at that time. -/
def lookupObs (o : ObsSeries) (t : ℤ) : Option ℚ := lookupTime o.series t

/-- Modelled from the spec: valid time = initialization timestamp advanced
by (lead offset x lead unit); with timestamps counted in lead-unit steps
this is plain addition. -/
def validTime (i : ℤ) (L : ℕ) : ℤ := i + L

/-- Calendar month (1..12) of a timestamp, for monthly-stepped time. -/
def monthOf (t : ℤ) : ℕ := (t % 12).toNat + 1

/-- Does an initialization timestamp match an optional month group key? -/
def matchesGroup : Option ℕ → ℤ → Bool
  | none, _ => true
  | some m, i => monthOf i == m

/-- Modelled from the spec: average across ensemble members, producing one
paired forecast value per (initialization, lead). -/
def memberMean (f : Forecast) (i : ℤ) (L : ℕ) : ℚ :=
  ((List.range f.nMember).map (f.val i L)).sum / f.nMember

/-- Modelled from the spec: the paired anomaly samples at lead `L` (under
an optional initialization-month group key): for each matching
initialization, the member-mean forecast value paired with the observation
at the valid time; initializations whose valid time has no observation are
dropped. -/
def pairsAtLead (f : Forecast) (o : ObsSeries) (g : Option ℕ) (L : ℕ) :
    List (ℚ × ℚ) :=
  (f.inits.filter (matchesGroup g)).filterMap fun i =>
    (lookupObs o (validTime i L)).map fun ov => (memberMean f i L, ov)

/-- Skill per lead: the Pearson correlation of the paired samples at each
lead `0, ..., nLead - 1`. -/
def skillPerLead (f : Forecast) (o : ObsSeries) (g : Option ℕ) :
    List SkillValue :=
  (List.range f.nLead).map fun L => pearson (pairsAtLead f o g L)

/-- The fatal error of the skill computation. -/
inductive SkillError : Type
  | unitMismatch : SkillError
  deriving DecidableEq, Repr

/-- The optional grouping configuration: score each initialization-month
partition independently. -/
inductive Grouping : Type
  | initMonth : Grouping
  deriving DecidableEq, Repr

/-- The skill result: one value per lead, or (when grouped by
initialization month) one row of per-lead values per month 1..12. -/
inductive SkillResult : Type
  | ungrouped (vals : List SkillValue) : SkillResult
  | grouped (rows : List (List SkillValue)) : SkillResult
  deriving DecidableEq, Repr

/-- All skill entries of a result. -/
def SkillResult.entries : SkillResult → List SkillValue
  | .ungrouped vals => vals
  | .grouped rows => rows.flatten

/-- Modelled from the spec: `compute_skill(forecast, observation, grouping)`
(the repository calls it through `HindcastEnsemble.verify` /
`compute_metric` of the external verification library).  Fails with
`UnitMismatchError` when the declared lead unit is not in the enumerated
set or the observation sampling frequency is incompatible with it;
otherwise returns the per-lead Pearson correlation of the paired anomaly
samples, partitioned by initialization month when grouping is requested. -/
def compute_skill (f : Forecast) (o : ObsSeries) (g : Option Grouping) :
    Except SkillError SkillResult :=
  if f.leadUnits ∈ allowedUnits ∧ o.freq = f.leadUnits then
    match g with
    | none => .ok (.ungrouped (skillPerLead f o none))
    | some .initMonth =>
        .ok (.grouped ((List.range 12).map fun m =>
          skillPerLead f o (some (m + 1))))
  else .error .unitMismatch

/-- Restriction of a forecast to the initializations of one calendar
month (the notebook's `fcst.sel(init=fcst['init.month']==im+1)`). -/
def restrictToMonth (f : Forecast) (m : ℕ) : Forecast :=
  { f with inits := f.inits.filter fun i => monthOf i == m }

/-! ## Lead relabeling (notebook source)

All three notebooks run `fcstds['lead'] = (fcstds['lead'] - 0.5).astype('int')`
on source leads `0.5, 1.5, 2.5, ...`.  The subtraction is exact on these
values, so it is embedded over exact rationals; `astype('int')` truncates
toward zero. -/

/-- Truncation toward zero, the behaviour of numpy's `astype('int')` on a
finite value. -/
def truncToInt (q : ℚ) : ℤ := if 0 ≤ q then ⌊q⌋ else ⌈q⌉

/-- The lead relabeling `(lead - 0.5).astype('int')` applied to one lead
value. -/
def relabelLead (x : ℚ) : ℤ := truncToInt (x - 1 / 2)

/-- The source data's lead axis: `0.5, 1.5, 2.5, ...` (`n` entries). -/
def sourceLeads (n : ℕ) : List ℚ :=
  (List.range n).map fun k : ℕ => (k : ℚ) + 1 / 2

/-! ## Seasonal pipeline (seasonal notebook source)

`fcstnino34seas = fcstanoms.rolling(lead=3, center=True).mean().dropna(dim='lead')`
followed by subsampling `fcstnino34seas['sst'][:, ::3, :]` relabeled with
`np.arange(0, nleads)` as the new lead coordinate. -/

/-- Centered 3-point rolling mean along an axis, xarray semantics with the
default `min_periods` equal to the window: position `i` holds the mean of
positions `i - 1, i, i + 1` when all three exist, `none` (NaN) otherwise. -/
def rolling3Center (xs : List ℚ) : List (Option ℚ) :=
  (List.range xs.length).map fun i =>
    if 1 ≤ i ∧ i + 1 < xs.length then
      some ((xs.getD (i - 1) 0 + xs.getD i 0 + xs.getD (i + 1) 0) / 3)
    else none

/-- Dropping NaN entries along the rolled axis (the source's `dropna`):
keep the defined entries. -/
def dropna (l : List (Option ℚ)) : List ℚ := l.filterMap id

/-- Every 3rd element, Python's `[::3]`. -/
def everyThird : List ℚ → List ℚ
  | [] => []
  | a :: rest => a :: everyThird (rest.drop 2)
  termination_by l => l.length
  decreasing_by simp; omega

/-- The rolled, NaN-dropped seasonal series of one (init, member) slice. -/
def seasonalSeries (xs : List ℚ) : List ℚ := dropna (rolling3Center xs)

/-- The seasonal forecast slice as constructed by the notebook: the
subsampled data together with its new contiguous integer lead
coordinate `np.arange(0, nleads)`. -/
structure SeasonalFcst : Type where
  leadCoord : List ℕ
  data : List ℚ
  deriving DecidableEq, Repr

/-- The notebook's `xr.DataArray(fcstnino34seas['sst'][:, ::3, :],
coords={..., 'lead': np.arange(0, nleads), ...})` for one (init, member)
slice: subsample every 3rd seasonal value and relabel the lead axis with
`np.arange(0, nleads)`. -/
def mkSeasonalFcst (xs : List ℚ) : SeasonalFcst :=
  { leadCoord := List.range (everyThird (seasonalSeries xs)).length,
    data := everyThird (seasonalSeries xs) }

/-! ## `decode_cf` (notebook source)

```python
def decode_cf(ds, time_var):
    if ds[time_var].attrs['calendar'] == '360':
        ds[time_var].attrs['calendar'] = '360_day'
    ds = xr.decode_cf(ds, decode_times=True)
    return ds
```

The dataset is modelled as an association list of named variables, each
with an attribute association list and a data payload; `xr.decode_cf` is
external to the repository and enters as a function parameter. -/

/-- One dataset variable: its attributes and its data. -/
structure Var : Type where
  attrs : List (String × String)
  data : List ℚ
  deriving DecidableEq, Repr

/-- A dataset: named variables. -/
structure Dataset : Type where
  vars : List (String × Var)
  deriving DecidableEq, Repr

/-- Variable lookup, the source's `ds[name]`. -/
def getVar (ds : Dataset) (name : String) : Option Var := ds.vars.lookup name

/-- A failed Python dict lookup (`KeyError`). -/
inductive DsError : Type
  | keyError : DsError
  deriving DecidableEq, Repr

/-- Overwrite one attribute of one variable (`ds[tv].attrs[k] = v`). -/
def setVarAttr (ds : Dataset) (tv k v : String) : Dataset :=
  { vars := ds.vars.map fun p =>
      (p.1, if p.1 = tv then
        { p.2 with attrs := p.2.attrs.map fun a =>
            (a.1, if a.1 = k then v else a.2) }
      else p.2) }

/-- The pre-decode calendar fix of `decode_cf`: read
`ds[time_var].attrs['calendar']` (a `KeyError` when the variable or the
attribute is missing) and rewrite it to `"360_day"` exactly when it equals
`"360"`. -/
def fixCalendar (ds : Dataset) (time_var : String) : Except DsError Dataset :=
  match getVar ds time_var with
  | none => .error .keyError
  | some v =>
    match v.attrs.lookup "calendar" with
    | none => .error .keyError
    | some cal =>
      .ok (if cal = "360" then setVarAttr ds time_var "calendar" "360_day"
           else ds)

/-- The notebooks' `decode_cf`: fix the calendar attribute, then apply the
external `xr.decode_cf` (passed in as `decodeTimes`). -/
def decode_cf (decodeTimes : Dataset → Dataset) (ds : Dataset)
    (time_var : String) : Except DsError Dataset :=
  (fixCalendar ds time_var).map decodeTimes

/-! ## Concrete inputs used by the witness theorems -/

/-- Sum of squared deviations of a plain series from its mean. -/
def sumSqDev (xs : List ℚ) : ℚ := (xs.map fun x => (x - mean xs) ^ 2).sum

/-- Degeneracy of a paired sample list: fewer than 2 samples, or a
constant forecast series, or a constant observation series. -/
def Degenerate (ps : List (ℚ × ℚ)) : Prop :=
  ps.length < 2 ∨ (∀ p ∈ ps, ∀ q ∈ ps, p.1 = q.1) ∨
    (∀ p ∈ ps, ∀ q ∈ ps, p.2 = q.2)

instance (ps : List (ℚ × ℚ)) : Decidable (Degenerate ps) := by
  unfold Degenerate
  infer_instance

/-- A 3-initialization, 1-lead, 1-member daily forecast whose values equal
the observation values. -/
def wFcst1 : Forecast :=
  { inits := [0, 1, 2], nLead := 1, nMember := 1, leadUnits := "days",
    val := fun i _ _ => (i : ℚ) }

/-- A 3-point daily observation series. -/
def wObs1 : ObsSeries := { series := [(0, 0), (1, 1), (2, 2)], freq := "days" }

/-- The concrete scenario of the perfect-forecast claim: 30 daily
initializations, leads 0, 1, 2 in days, one member, with
forecast value at (init i, lead L) equal to the observation at the valid
time i + L. -/
def wFcst2 : Forecast :=
  { inits := (List.range 30).map fun i => (i : ℤ), nLead := 3, nMember := 1,
    leadUnits := "days", val := fun i L _ => (i : ℚ) + (L : ℚ) }

/-- The 40-point daily observation series of the concrete scenario, with
value t at time t. -/
def wObs2 : ObsSeries :=
  { series := (List.range 40).map fun t => ((t : ℤ), (t : ℚ)), freq := "days" }

/-- A monthly forecast whose 12 initializations cover all 12 months. -/
def wFcst3 : Forecast :=
  { inits := (List.range 12).map fun i => (i : ℤ), nLead := 1, nMember := 1,
    leadUnits := "months", val := fun i _ _ => (i : ℚ) }

/-- A 24-point monthly observation series. -/
def wObs3 : ObsSeries :=
  { series := (List.range 24).map fun t => ((t : ℤ), (t : ℚ)),
    freq := "months" }

/-- A single-initialization forecast (degenerate: one paired sample). -/
def wFcst4 : Forecast :=
  { inits := [0], nLead := 1, nMember := 1, leadUnits := "days",
    val := fun _ _ _ => 1 }

/-- A single-point observation series. -/
def wObs4 : ObsSeries := { series := [(0, 5)], freq := "days" }

/-- A forecast whose month-1 bucket holds a single initialization (0)
while the data as a whole has three initializations with distinct values:
the month bucket is degenerate, the ungrouped data is not. -/
def wFcst5 : Forecast :=
  { inits := [0, 1, 13], nLead := 1, nMember := 1, leadUnits := "days",
    val := fun i _ _ => (i : ℚ) }

/-- Observations at the three valid times of the bucket-degeneracy
scenario, with three distinct values. -/
def wObs5 : ObsSeries :=
  { series := [(0, 0), (1, 1), (13, 5)], freq := "days" }

/-- The negated counterpart of the perfect forecast: forecast value at
(init i, lead L) is the negation of the observation at time i + L. -/
def wFcst6 : Forecast :=
  { inits := (List.range 30).map fun i => (i : ℤ), nLead := 3, nMember := 1,
    leadUnits := "days", val := fun i L _ => -((i : ℚ) + (L : ℚ)) }

/-- A forecast with an unrecognized lead unit. -/
def wFcst7 : Forecast :=
  { inits := [0], nLead := 1, nMember := 1, leadUnits := "fortnights",
    val := fun _ _ _ => 0 }

/-- A dataset time variable with a calendar attribute equal to "360". -/
def wVarT : Var :=
  { attrs := [("calendar", "360"), ("units", "months since 1960-01-01")],
    data := [1, 2] }

/-- A dataset holding the time variable and one other variable. -/
def wDs : Dataset :=
  { vars := [("S", wVarT), ("X", { attrs := [("role", "data")], data := [7] })] }

/-! ## Helper lemmas: sums, means and deviations -/

/-- A list sum of nonnegative rationals is nonnegative. -/
lemma sum_nonneg_of_mem {l : List ℚ} (h : ∀ x ∈ l, 0 ≤ x) : 0 ≤ l.sum :=
  List.sum_nonneg h

/-- A zero list sum of nonnegative rationals forces every element to be
zero. -/
lemma eq_zero_of_sum_eq_zero : ∀ {l : List ℚ}, (∀ x ∈ l, 0 ≤ x) →
    l.sum = 0 → ∀ x ∈ l, x = 0 := by
  intro l
  induction l with
  | nil => intro _ _ x hx; cases hx
  | cons a t ih =>
    intro hnn hsum x hx
    have hta : 0 ≤ a := hnn a (List.mem_cons_self a t)
    have htt : ∀ y ∈ t, 0 ≤ y := fun y hy => hnn y (List.mem_cons_of_mem a hy)
    have htsum : 0 ≤ t.sum := List.sum_nonneg htt
    rw [List.sum_cons] at hsum
    rcases List.mem_cons.mp hx with rfl | hxt
    · linarith
    · exact ih htt (by linarith) x hxt

/-- The mean of a nonempty constant list is that constant. -/
lemma mean_const {l : List ℚ} {c : ℚ} (hne : l ≠ []) (h : ∀ x ∈ l, x = c) :
    mean l = c := by
  have hrep : l = List.replicate l.length c := List.eq_replicate_of_mem h
  have hlen : (0 : ℚ) < l.length := by
    have : 0 < l.length := List.length_pos.mpr hne
    exact_mod_cast this
  rw [mean, hrep]
  rw [List.sum_replicate, List.length_replicate, nsmul_eq_mul]
  field_simp

lemma sumSqDev_nonneg (xs : List ℚ) : 0 ≤ sumSqDev xs :=
  List.sum_nonneg (by
    intro q hq
    rcases List.mem_map.mp hq with ⟨x, _, rfl⟩
    positivity)

/-- Zero summed squared deviation means every element equals the mean. -/
lemma eq_mean_of_sumSqDev_eq_zero {xs : List ℚ} (h : sumSqDev xs = 0) :
    ∀ x ∈ xs, x = mean xs := by
  intro x hx
  have hz := eq_zero_of_sum_eq_zero (l := xs.map fun x => (x - mean xs) ^ 2)
    (by
      intro q hq
      rcases List.mem_map.mp hq with ⟨y, _, rfl⟩
      positivity)
    h ((x - mean xs) ^ 2) (List.mem_map.mpr ⟨x, hx, rfl⟩)
  have : x - mean xs = 0 := by
    have := sq_eq_zero_iff.mp hz
    exact this
  linarith

/-- A nonempty constant series has zero summed squared deviation. -/
lemma sumSqDev_eq_zero_of_const {xs : List ℚ} (hne : xs ≠ [])
    (h : ∀ a ∈ xs, ∀ b ∈ xs, a = b) : sumSqDev xs = 0 := by
  obtain ⟨c, hc⟩ : ∃ c, ∀ x ∈ xs, x = c := by
    cases xs with
    | nil => exact absurd rfl hne
    | cons a t =>
      exact ⟨a, fun x hx => h x hx a (List.mem_cons_self a t)⟩
  have hm : mean xs = c := mean_const hne hc
  unfold sumSqDev
  have : xs.map (fun x => (x - mean xs) ^ 2) = xs.map fun _ => (0 : ℚ) := by
    apply List.map_congr_left
    intro x hx
    rw [hm, hc x hx]
    ring
  rw [this]
  simp

/-- The quantity `sxx` is the summed squared deviation of the forecast
components. -/
lemma sxx_eq_sumSqDev (ps : List (ℚ × ℚ)) :
    sxx ps = sumSqDev (ps.map Prod.fst) := by
  unfold sxx sumSqDev devs
  rw [List.map_map, List.map_map]
  congr 1

/-- The quantity `syy` is the summed squared deviation of the observation
components. -/
lemma syy_eq_sumSqDev (ps : List (ℚ × ℚ)) :
    syy ps = sumSqDev (ps.map Prod.snd) := by
  unfold syy sumSqDev devs
  rw [List.map_map, List.map_map]
  congr 1

lemma sxx_nonneg (ps : List (ℚ × ℚ)) : 0 ≤ sxx ps := by
  rw [sxx_eq_sumSqDev]; exact sumSqDev_nonneg _

lemma syy_nonneg (ps : List (ℚ × ℚ)) : 0 ≤ syy ps := by
  rw [syy_eq_sumSqDev]; exact sumSqDev_nonneg _

/-- Cauchy-Schwarz for lists of pairs of rationals. -/
lemma sq_sum_mul_le : ∀ l : List (ℚ × ℚ),
    ((l.map fun p => p.1 * p.2).sum) ^ 2 ≤
      ((l.map fun p => p.1 ^ 2).sum) * ((l.map fun p => p.2 ^ 2).sum) := by
  intro l
  induction l with
  | nil => simp
  | cons p t ih =>
    obtain ⟨a, b⟩ := p
    simp only [List.map_cons, List.sum_cons]
    set S := (t.map fun p => p.1 * p.2).sum with hS
    set X := (t.map fun p => p.1 ^ 2).sum with hX
    set Y := (t.map fun p => p.2 ^ 2).sum with hY
    have hXnn : 0 ≤ X := List.sum_nonneg (by
      intro q hq; rcases List.mem_map.mp hq with ⟨x, _, rfl⟩; positivity)
    have hYnn : 0 ≤ Y := List.sum_nonneg (by
      intro q hq; rcases List.mem_map.mp hq with ⟨x, _, rfl⟩; positivity)
    rcases eq_or_lt_of_le hYnn with hY0 | hYpos
    · have hS0 : S = 0 := by
        have h1 : S ^ 2 ≤ 0 := by
          calc S ^ 2 ≤ X * Y := ih
          _ = 0 := by rw [← hY0]; ring
        have := sq_nonneg S
        nlinarith
      rw [← hY0, hS0]
      nlinarith [sq_nonneg a, sq_nonneg b, mul_nonneg hXnn (sq_nonneg b)]
    · nlinarith [sq_nonneg (a * Y - b * S), mul_nonneg (sq_nonneg b)
        (sub_nonneg.mpr ih), mul_nonneg (le_of_lt hYpos) (sub_nonneg.mpr ih), ih]

/-- Cauchy-Schwarz for the deviation sums: the squared covariance numerator
is bounded by the product of the variance numerators. -/
lemma sxy_sq_le (ps : List (ℚ × ℚ)) : sxy ps ^ 2 ≤ sxx ps * syy ps :=
  sq_sum_mul_le (devs ps)

/-! ## Helper lemmas: the real value of a `corr` entry -/

/-- A `corr` entry with `num ^ 2 ≤ den` and `0 < den` has real value in
`[-1, 1]`. -/
lemma corrValue_mem_Icc {num den : ℚ} (hden : 0 < den) (h : num ^ 2 ≤ den) :
    (num : ℝ) / Real.sqrt (den : ℝ) ∈ Set.Icc (-1 : ℝ) 1 := by
  have hdenR : (0 : ℝ) < (den : ℝ) := by exact_mod_cast hden
  have hsq : ((num : ℝ)) ^ 2 ≤ (den : ℝ) := by exact_mod_cast h
  have hsqrtpos : 0 < Real.sqrt (den : ℝ) := Real.sqrt_pos.mpr hdenR
  have habs : |(num : ℝ)| ≤ Real.sqrt (den : ℝ) := by
    calc |(num : ℝ)| = Real.sqrt ((num : ℝ) ^ 2) := (Real.sqrt_sq_eq_abs _).symm
    _ ≤ Real.sqrt (den : ℝ) := Real.sqrt_le_sqrt hsq
  have : |(num : ℝ) / Real.sqrt (den : ℝ)| ≤ 1 := by
    rw [abs_div, abs_of_pos hsqrtpos]
    exact div_le_one_of_le₀ habs hsqrtpos.le
  exact ⟨neg_le_of_abs_le this, le_of_abs_le this⟩

/-- A `corr` entry with positive numerator and `den = num ^ 2` has real
value exactly `1`. -/
lemma corrValue_eq_one {num den : ℚ} (hnum : 0 < num) (h : num ^ 2 = den) :
    (num : ℝ) / Real.sqrt (den : ℝ) = 1 := by
  have hnumR : (0 : ℝ) < (num : ℝ) := by exact_mod_cast hnum
  have hsq : (den : ℝ) = ((num : ℝ)) ^ 2 := by exact_mod_cast h.symm
  rw [hsq, Real.sqrt_sq hnumR.le]
  exact div_self (ne_of_gt hnumR)

/-- A `corr` entry with numerator `-c`, `0 < c`, and `den = c ^ 2` has real
value exactly `-1`. -/
lemma corrValue_eq_negOne {c den : ℚ} (hc : 0 < c) (h : c ^ 2 = den) :
    ((-c : ℚ) : ℝ) / Real.sqrt (den : ℝ) = -1 := by
  have hcR : (0 : ℝ) < (c : ℝ) := by exact_mod_cast hc
  have hsq : (den : ℝ) = ((c : ℝ)) ^ 2 := by exact_mod_cast h.symm
  rw [hsq, Real.sqrt_sq hcR.le]
  push_cast
  rw [neg_div]
  rw [div_self (ne_of_gt hcR)]

/-! ## Helper lemmas: case analysis of `pearson` -/

/-- Every `pearson` output is NaN or a finite correlation with positive
denominator bounded below by the squared numerator (Cauchy-Schwarz). -/
lemma pearson_cases (ps : List (ℚ × ℚ)) :
    pearson ps = .nan ∨ ∃ num den, pearson ps = .corr num den ∧
      0 < den ∧ num ^ 2 ≤ den := by
  unfold pearson
  by_cases h2 : ps.length < 2
  · left; simp [h2]
  · by_cases hz : sxx ps = 0 ∨ syy ps = 0
    · left; simp [h2, hz]
    · right
      push_neg at hz
      have hxpos : 0 < sxx ps := lt_of_le_of_ne (sxx_nonneg ps) (Ne.symm hz.1)
      have hypos : 0 < syy ps := lt_of_le_of_ne (syy_nonneg ps) (Ne.symm hz.2)
      refine ⟨sxy ps, sxx ps * syy ps, ?_, mul_pos hxpos hypos, sxy_sq_le ps⟩
      simp [h2, hz.1, hz.2]

/-- Every entry of a `pearson` list is in `[-1, 1]` or NaN. -/
lemma pearson_nan_or_bounded (ps : List (ℚ × ℚ)) :
    pearson ps = .nan ∨ ∃ num den, pearson ps = .corr num den ∧
      0 < den ∧ (num : ℝ) / Real.sqrt (den : ℝ) ∈ Set.Icc (-1 : ℝ) 1 := by
  rcases pearson_cases ps with h | ⟨num, den, heq, hden, hcs⟩
  · exact Or.inl h
  · exact Or.inr ⟨num, den, heq, hden, corrValue_mem_Icc hden hcs⟩

/-- A variance numerator cannot vanish when two forecast components
differ. -/
lemma sxx_ne_zero_of_two_ne {ps : List (ℚ × ℚ)}
    (hne : ∃ p ∈ ps, ∃ q ∈ ps, p.1 ≠ q.1) : sxx ps ≠ 0 := by
  intro h0
  rw [sxx_eq_sumSqDev] at h0
  obtain ⟨p, hp, q, hq, hpq⟩ := hne
  have hpm := eq_mean_of_sumSqDev_eq_zero h0 p.1
    (List.mem_map.mpr ⟨p, hp, rfl⟩)
  have hqm := eq_mean_of_sumSqDev_eq_zero h0 q.1
    (List.mem_map.mpr ⟨q, hq, rfl⟩)
  exact hpq (hpm.trans hqm.symm)

/-- With identical paired components, the covariance and both variance
numerators coincide. -/
lemma sums_of_eq {ps : List (ℚ × ℚ)} (heq : ∀ p ∈ ps, p.1 = p.2) :
    sxy ps = sxx ps ∧ syy ps = sxx ps := by
  have hsnd : ps.map Prod.snd = ps.map Prod.fst :=
    List.map_congr_left fun p hp => (heq p hp).symm
  constructor
  · unfold sxy sxx devs
    rw [List.map_map, List.map_map]
    apply congrArg List.sum
    apply List.map_congr_left
    intro p hp
    simp only [Function.comp_apply]
    rw [hsnd, ← heq p hp]
    ring
  · rw [syy_eq_sumSqDev, hsnd, ← sxx_eq_sumSqDev]

/-- Negating a list negates its sum. -/
lemma sum_map_neg (xs : List ℚ) : (xs.map fun x => -x).sum = -xs.sum := by
  induction xs with
  | nil => simp
  | cons a t ih => simp [ih]; ring

/-- Negating a list negates its mean. -/
lemma mean_map_neg (xs : List ℚ) : mean (xs.map fun x => -x) = -mean xs := by
  unfold mean
  rw [sum_map_neg, List.length_map, neg_div]

/-- With exactly negated paired components, the covariance numerator is the
negated forecast variance numerator and the variance numerators agree. -/
lemma sums_of_neg {ps : List (ℚ × ℚ)} (hneg : ∀ p ∈ ps, p.2 = -p.1) :
    sxy ps = -(sxx ps) ∧ syy ps = sxx ps := by
  have hsnd : ps.map Prod.snd = (ps.map Prod.fst).map fun x => -x := by
    rw [List.map_map]
    apply List.map_congr_left
    intro p hp
    simp only [Function.comp_apply]
    exact hneg p hp
  have hmy : mean (ps.map Prod.snd) = -mean (ps.map Prod.fst) := by
    rw [hsnd, mean_map_neg]
  constructor
  · unfold sxy sxx devs
    rw [List.map_map, List.map_map, ← sum_map_neg, List.map_map]
    apply congrArg List.sum
    apply List.map_congr_left
    intro p hp
    simp only [Function.comp_apply]
    rw [hmy, hneg p hp]
    ring
  · unfold syy sxx devs
    rw [List.map_map, List.map_map]
    apply congrArg List.sum
    apply List.map_congr_left
    intro p hp
    simp only [Function.comp_apply]
    rw [hmy, hneg p hp]
    ring

/-- Pearson correlation of a perfectly matching sample list: finite, with
positive numerator equal to the variance numerator. -/
lemma pearson_of_eq {ps : List (ℚ × ℚ)} (h2 : 2 ≤ ps.length)
    (heq : ∀ p ∈ ps, p.1 = p.2)
    (hne : ∃ p ∈ ps, ∃ q ∈ ps, p.1 ≠ q.1) :
    pearson ps = .corr (sxx ps) (sxx ps * sxx ps) ∧ 0 < sxx ps := by
  obtain ⟨hxy, hyy⟩ := sums_of_eq heq
  have hnz : sxx ps ≠ 0 := sxx_ne_zero_of_two_ne hne
  have hpos : 0 < sxx ps := lt_of_le_of_ne (sxx_nonneg ps) (Ne.symm hnz)
  refine ⟨?_, hpos⟩
  have h2' : ¬ ps.length < 2 := by omega
  have hor : ¬ (sxx ps = 0 ∨ syy ps = 0) := by
    push_neg
    exact ⟨hnz, hyy ▸ hnz⟩
  unfold pearson
  rw [if_neg h2', if_neg hor, hxy, hyy]

/-- Pearson correlation of an exactly negated sample list: finite, with
numerator the negated (positive) variance numerator. -/
lemma pearson_of_neg {ps : List (ℚ × ℚ)} (h2 : 2 ≤ ps.length)
    (hneg : ∀ p ∈ ps, p.2 = -p.1)
    (hne : ∃ p ∈ ps, ∃ q ∈ ps, p.1 ≠ q.1) :
    pearson ps = .corr (-(sxx ps)) (sxx ps * sxx ps) ∧ 0 < sxx ps := by
  obtain ⟨hxy, hyy⟩ := sums_of_neg hneg
  have hnz : sxx ps ≠ 0 := sxx_ne_zero_of_two_ne hne
  have hpos : 0 < sxx ps := lt_of_le_of_ne (sxx_nonneg ps) (Ne.symm hnz)
  refine ⟨?_, hpos⟩
  have h2' : ¬ ps.length < 2 := by omega
  have hor : ¬ (sxx ps = 0 ∨ syy ps = 0) := by
    push_neg
    exact ⟨hnz, hyy ▸ hnz⟩
  unfold pearson
  rw [if_neg h2', if_neg hor, hxy, hyy]

/-- Degenerate samples give a NaN correlation. -/
lemma pearson_of_degenerate {ps : List (ℚ × ℚ)} (h : Degenerate ps) :
    pearson ps = .nan := by
  by_cases h2 : ps.length < 2
  · simp [pearson, h2]
  · have hne : ps ≠ [] := by
      intro hnil
      rw [hnil] at h2
      simp at h2
    rcases h with h | hfst | hsnd
    · exact absurd h h2
    · have hxz : sxx ps = 0 := by
        rw [sxx_eq_sumSqDev]
        apply sumSqDev_eq_zero_of_const
        · simp [hne]
        · intro a ha b hb
          rcases List.mem_map.mp ha with ⟨p, hp, rfl⟩
          rcases List.mem_map.mp hb with ⟨q, hq, rfl⟩
          exact hfst p hp q hq
      simp [pearson, h2, hxz]
    · have hyz : syy ps = 0 := by
        rw [syy_eq_sumSqDev]
        apply sumSqDev_eq_zero_of_const
        · simp [hne]
        · intro a ha b hb
          rcases List.mem_map.mp ha with ⟨p, hp, rfl⟩
          rcases List.mem_map.mp hb with ⟨q, hq, rfl⟩
          exact hsnd p hp q hq
      simp [pearson, h2, hyz]

/-! ## Helper lemmas: structure of the skill result -/

/-- Every entry of a successful skill result is a Pearson correlation of
some paired sample list. -/
lemma entries_compute_skill {f : Forecast} {o : ObsSeries}
    {g : Option Grouping} {r : SkillResult}
    (h : compute_skill f o g = .ok r) :
    ∀ v ∈ r.entries, ∃ ps, v = pearson ps := by
  unfold compute_skill at h
  split at h
  · cases g with
    | none =>
      cases h
      intro v hv
      simp only [SkillResult.entries, skillPerLead, List.mem_map,
        List.mem_range] at hv
      obtain ⟨L, _, rfl⟩ := hv
      exact ⟨_, rfl⟩
    | some gr =>
      cases gr
      cases h
      intro v hv
      simp only [SkillResult.entries, List.mem_flatten, List.mem_map,
        List.mem_range, skillPerLead] at hv
      obtain ⟨row, ⟨m, _, rfl⟩, hvrow⟩ := hv
      obtain ⟨L, _, rfl⟩ := List.mem_map.mp hvrow
      exact ⟨_, rfl⟩
  · cases h

/-- Filtering with a month group key is the same as restricting the
forecast to that month first. -/
lemma pairsAtLead_restrict (f : Forecast) (o : ObsSeries) (m : ℕ) (L : ℕ) :
    pairsAtLead f o (some m) L = pairsAtLead (restrictToMonth f m) o none L := by
  unfold pairsAtLead restrictToMonth
  have h1 : matchesGroup (some m) = fun i => monthOf i == m := rfl
  have h2 : matchesGroup none = fun _ : ℤ => true := rfl
  simp only [h1, h2, List.filter_true]
  rfl

/-- Grouped and restricted per-lead skill agree. -/
lemma skillPerLead_restrict (f : Forecast) (o : ObsSeries) (m : ℕ) :
    skillPerLead f o (some m) = skillPerLead (restrictToMonth f m) o none := by
  unfold skillPerLead
  have : (restrictToMonth f m).nLead = f.nLead := rfl
  rw [this]
  apply List.map_congr_left
  intro L _
  rw [pairsAtLead_restrict]

/-- An initialization whose valid time has no observation contributes no
paired sample. -/
lemma pairsAtLead_cons_miss (f : Forecast) (o : ObsSeries) (i : ℤ)
    (g : Option ℕ) (L : ℕ) (hmiss : lookupObs o (validTime i L) = none) :
    pairsAtLead { f with inits := i :: f.inits } o g L =
      pairsAtLead f o g L := by
  unfold pairsAtLead
  simp only
  rw [List.filter_cons]
  by_cases hg : matchesGroup g i
  · rw [if_pos hg, List.filterMap_cons, hmiss]
    simp only [Option.map_none']
    rfl
  · rw [if_neg hg]
    rfl

/-! ## Helper lemmas: guarded range enumeration (seasonal pipeline) -/

/-- A range filtered through a threshold guard is an initial segment. -/
lemma filterMap_range_lt (h : ℕ → ℚ) :
    ∀ m k : ℕ, (List.range m).filterMap
      (fun j => if j < k then some (h j) else none) =
      (List.range (min k m)).map h := by
  intro m
  induction m with
  | zero => intro k; simp
  | succ m ih =>
    intro k
    rw [List.range_succ, List.filterMap_append]
    by_cases hm : m < k
    · have hmin : min k (m + 1) = m + 1 := by omega
      have hmin' : min k m = m := by omega
      rw [hmin, ih k, hmin', List.range_succ, List.map_append]
      simp [hm]
    · have hmin : min k (m + 1) = min k m := by omega
      rw [hmin, ih k]
      simp [hm]

/-- The window guard of the centered rolling mean keeps exactly the
interior positions. -/
lemma filterMap_window_range (g : ℕ → ℚ) (n : ℕ) (h3 : 3 ≤ n) :
    (List.range n).filterMap
      (fun i => if 1 ≤ i ∧ i + 1 < n then some (g i) else none) =
      (List.range (n - 2)).map fun j => g (j + 1) := by
  have hpeel : List.range n = 0 :: (List.range (n - 1)).map Nat.succ := by
    have hn : n = (n - 1) + 1 := by omega
    conv_lhs => rw [hn]
    rw [List.range_succ_eq_map]
  rw [hpeel]
  rw [List.filterMap_cons]
  have h0 : (if 1 ≤ 0 ∧ 0 + 1 < n then some (g 0) else none) = none := by
    simp
  rw [h0, List.filterMap_map]
  have hcongr : ∀ j ∈ List.range (n - 1),
      ((fun i => if 1 ≤ i ∧ i + 1 < n then some (g i) else none) ∘ Nat.succ) j
        = (fun j => if j < n - 2 then some (g (j + 1)) else none) j := by
    intro j _
    simp only [Function.comp_apply]
    by_cases hj : j < n - 2
    · rw [if_pos (by omega), if_pos hj]
    · rw [if_neg (by omega), if_neg hj]
  rw [List.filterMap_congr hcongr, filterMap_range_lt]
  have : min (n - 2) (n - 1) = n - 2 := by omega
  rw [this]

/-- The seasonal series in closed form: the centered 3-point rolling mean
with NaN ends dropped is the list of interior 3-point means. -/
lemma seasonalSeries_eq (xs : List ℚ) (h3 : 3 ≤ xs.length) :
    seasonalSeries xs = (List.range (xs.length - 2)).map
      fun j => (xs.getD j 0 + xs.getD (j + 1) 0 + xs.getD (j + 2) 0) / 3 := by
  unfold seasonalSeries dropna rolling3Center
  rw [List.filterMap_map]
  have hcomp : (id ∘ fun i =>
      if 1 ≤ i ∧ i + 1 < xs.length then
        some ((xs.getD (i - 1) 0 + xs.getD i 0 + xs.getD (i + 1) 0) / 3)
      else none) = fun i =>
      if 1 ≤ i ∧ i + 1 < xs.length then
        some ((xs.getD (i - 1) 0 + xs.getD i 0 + xs.getD (i + 1) 0) / 3)
      else none := rfl
  rw [hcomp,
    filterMap_window_range (fun i =>
      (xs.getD (i - 1) 0 + xs.getD i 0 + xs.getD (i + 1) 0) / 3) _ h3]
  apply List.map_congr_left
  intro j _
  simp only [Nat.add_sub_cancel]

/-- Length of Python's `[::3]` subsampling. -/
lemma length_everyThird : ∀ l : List ℚ,
    (everyThird l).length = (l.length + 2) / 3 := by
  intro l
  induction l using everyThird.induct with
  | case1 => simp [everyThird]
  | case2 a rest ih =>
    rw [everyThird]
    simp only [List.length_cons, ih, List.length_drop]
    omega

/-! ## Helper lemmas: association-list updates (decode_cf) -/

/-- Looking up after a key-dependent value update. -/
lemma lookup_map_keydep {α : Type} (l : List (String × α))
    (f : String → α → α) (k : String) :
    (l.map fun p => (p.1, f p.1 p.2)).lookup k = (l.lookup k).map (f k) := by
  induction l with
  | nil => rfl
  | cons a t ih =>
    obtain ⟨s, v⟩ := a
    by_cases h : k = s
    · subst h
      simp [List.lookup]
    · have hbeq : (k == s) = false := beq_false_of_ne h
      simp [List.lookup, hbeq, ih]

set_option maxHeartbeats 3200000 in
/-- Evaluation of the paired samples of the concrete perfect-forecast
scenario: 30 pairs of equal values at each of the leads 0, 1, 2. -/
lemma wPairs2 : ∀ L < 3, pairsAtLead wFcst2 wObs2 none L =
    (List.range 30).map fun i : ℕ =>
      (((i : ℚ) + (L : ℚ), (i : ℚ) + (L : ℚ)) : ℚ × ℚ) := by
  intro L hL
  interval_cases L <;>
    norm_num [pairsAtLead, wFcst2, wObs2, lookupObs, lookupTime, validTime,
      memberMean, matchesGroup, List.filterMap_cons, List.range_succ]

/-- The concrete perfect-forecast scenario satisfies the hypotheses of the
perfect-forecast claim at every lead. -/
lemma wFcst2_hyp : ∀ L < wFcst2.nLead,
    (∀ p ∈ pairsAtLead wFcst2 wObs2 none L, p.1 = p.2) ∧
      2 ≤ (pairsAtLead wFcst2 wObs2 none L).length ∧
      ∃ p ∈ pairsAtLead wFcst2 wObs2 none L,
        ∃ q ∈ pairsAtLead wFcst2 wObs2 none L, p.1 ≠ q.1 := by
  intro L hL
  have hL3 : L < 3 := hL
  rw [wPairs2 L hL3]
  refine ⟨?_, ?_, ?_⟩
  · intro p hp
    obtain ⟨i, _, rfl⟩ := List.mem_map.mp hp
    rfl
  · rw [List.length_map, List.length_range]
    norm_num
  · refine ⟨_, List.mem_map_of_mem _ (List.mem_range.mpr
        (by norm_num : (0 : ℕ) < 30)), _,
      List.mem_map_of_mem _ (List.mem_range.mpr
        (by norm_num : (1 : ℕ) < 30)), ?_⟩
    norm_num

set_option maxHeartbeats 3200000 in
/-- Evaluation of the paired samples of the concrete negated-forecast
scenario: 30 pairs of exactly opposite values at each of the leads
0, 1, 2. -/
lemma wPairs6 : ∀ L < 3, pairsAtLead wFcst6 wObs2 none L =
    (List.range 30).map fun i : ℕ =>
      ((-((i : ℚ) + (L : ℚ)), (i : ℚ) + (L : ℚ)) : ℚ × ℚ) := by
  intro L hL
  interval_cases L <;>
    norm_num [pairsAtLead, wFcst6, wObs2, lookupObs, lookupTime, validTime,
      memberMean, matchesGroup, List.filterMap_cons, List.range_succ]

/-- The concrete negated-forecast scenario satisfies the hypotheses of the
negated-forecast claim at every lead. -/
lemma wFcst6_hyp : ∀ L < wFcst6.nLead,
    (∀ p ∈ pairsAtLead wFcst6 wObs2 none L, p.2 = -p.1) ∧
      2 ≤ (pairsAtLead wFcst6 wObs2 none L).length ∧
      ∃ p ∈ pairsAtLead wFcst6 wObs2 none L,
        ∃ q ∈ pairsAtLead wFcst6 wObs2 none L, p.1 ≠ q.1 := by
  intro L hL
  have hL3 : L < 3 := hL
  rw [wPairs6 L hL3]
  refine ⟨?_, ?_, ?_⟩
  · intro p hp
    obtain ⟨i, _, rfl⟩ := List.mem_map.mp hp
    simp
  · rw [List.length_map, List.length_range]
    norm_num
  · refine ⟨_, List.mem_map_of_mem _ (List.mem_range.mpr
        (by norm_num : (0 : ℕ) < 30)), _,
      List.mem_map_of_mem _ (List.mem_range.mpr
        (by norm_num : (1 : ℕ) < 30)), ?_⟩
    norm_num

/-- Evaluation of the ungrouped paired samples of the bucket-degeneracy
scenario: three pairs with distinct values. -/
lemma wPairs5_none : pairsAtLead wFcst5 wObs5 none 0 =
    [(0, 0), (1, 1), (13, 5)] := by
  norm_num [pairsAtLead, wFcst5, wObs5, lookupObs, lookupTime, validTime,
    memberMean, matchesGroup, List.filterMap_cons, List.range_succ]

/-- Evaluation of the month-1 paired samples of the bucket-degeneracy
scenario: a single pair (initializations 1 and 13 fall in month 2). -/
lemma wPairs5_m1 : pairsAtLead wFcst5 wObs5 (some 1) 0 = [(0, 0)] := by
  norm_num [pairsAtLead, wFcst5, wObs5, lookupObs, lookupTime, validTime,
    memberMean, matchesGroup, monthOf, List.filterMap_cons, List.range_succ]

/-- The month-1 bucket of the bucket-degeneracy scenario is degenerate
(one paired sample). -/
lemma wFcst5_month_degenerate :
    Degenerate (pairsAtLead wFcst5 wObs5 (some 1) 0) := by
  rw [wPairs5_m1]
  exact Or.inl (by norm_num)

/-- The ungrouped data of the bucket-degeneracy scenario is not
degenerate: three pairs, distinct forecast values, distinct observation
values. -/
lemma wFcst5_not_degenerate :
    ¬ Degenerate (pairsAtLead wFcst5 wObs5 none 0) := by
  rw [wPairs5_none]
  unfold Degenerate
  push_neg
  refine ⟨by norm_num, ?_, ?_⟩
  · exact ⟨(0, 0), by simp, (1, 1), by simp, by norm_num⟩
  · exact ⟨(0, 0), by simp, (1, 1), by simp, by norm_num⟩

/-- Evaluation of the skill computation on the small perfect input. -/
lemma compute_skill_wFcst1 :
    compute_skill wFcst1 wObs1 none = .ok (.ungrouped [.corr 2 4]) := by
  norm_num [compute_skill, allowedUnits, skillPerLead, pearson, pairsAtLead,
    wFcst1, wObs1, lookupObs, lookupTime, validTime, memberMean, matchesGroup,
    List.filterMap_cons, List.range_succ, sxx, syy, sxy, devs, mean]

/-! ## The claims -/

/-- C1: for every forecast/observation input pair, grouping choice and
lead, each skill entry of a successful result of the skill computation is
either NaN or a finite correlation value lying in the closed real interval
[-1, 1]; no returned entry lies outside these bounds. -/
theorem skill_bounded (f : Forecast) (o : ObsSeries) (g : Option Grouping)
    (r : SkillResult) (h : compute_skill f o g = .ok r) :
    ∀ v ∈ r.entries, v = .nan ∨ ∃ num den, v = .corr num den ∧ 0 < den ∧
      (num : ℝ) / Real.sqrt (den : ℝ) ∈ Set.Icc (-1 : ℝ) 1 := by
  intro v hv
  obtain ⟨ps, rfl⟩ := entries_compute_skill h v hv
  exact pearson_nan_or_bounded ps

/-- Witness for C1 at a concrete 3-sample daily input. -/
theorem skill_bounded_witness :
    compute_skill wFcst1 wObs1 none =
        .ok (.ungrouped [SkillValue.corr 2 4]) ∧
      ∀ v ∈ (SkillResult.ungrouped [SkillValue.corr 2 4]).entries,
        v = .nan ∨ ∃ num den, v = .corr num den ∧ 0 < den ∧
          (num : ℝ) / Real.sqrt (den : ℝ) ∈ Set.Icc (-1 : ℝ) 1 :=
  ⟨compute_skill_wFcst1,
    skill_bounded wFcst1 wObs1 none _ compute_skill_wFcst1⟩

/-- C7: a forecast whose declared lead unit is outside the enumerated set
{years, seasons, months, weeks, pentads, days}, or whose observation
sampling frequency is incompatible with the lead unit, makes the skill
computation fail with the fatal unit-mismatch error (not NaN, not a
recovered condition). -/
theorem bad_unit_error (f : Forecast) (o : ObsSeries) (g : Option Grouping)
    (hbad : f.leadUnits ∉ allowedUnits ∨ o.freq ≠ f.leadUnits) :
    compute_skill f o g = .error .unitMismatch := by
  unfold compute_skill
  rw [if_neg]
  intro ⟨h1, h2⟩
  rcases hbad with hb | hb
  · exact hb h1
  · exact hb h2

/-- Witness for C7 at a forecast declaring the unrecognized lead unit
"fortnights". -/
theorem bad_unit_error_witness :
    (wFcst7.leadUnits ∉ allowedUnits ∨ wObs1.freq ≠ wFcst7.leadUnits) ∧
      compute_skill wFcst7 wObs1 none = .error .unitMismatch :=
  ⟨Or.inl (by simp [wFcst7, allowedUnits]),
    bad_unit_error wFcst7 wObs1 none
      (Or.inl (by simp [wFcst7, allowedUnits]))⟩

/-- C5: a forecast sample whose valid time (initialization advanced by the
lead offset) has no matching observation timestamp is dropped from the
paired samples at that lead — not substituted by zero — and the missing
observation never makes the computation fail fatally: the correlation at
that lead is exactly the one computed without that initialization, and the
whole computation still returns a result for every grouping. -/
theorem missing_obs_dropped (f : Forecast) (o : ObsSeries) (i : ℤ)
    (g : Option ℕ) (L : ℕ) (hmiss : lookupObs o (validTime i L) = none) :
    pairsAtLead { f with inits := i :: f.inits } o g L =
        pairsAtLead f o g L ∧
      pearson (pairsAtLead { f with inits := i :: f.inits } o g L) =
        pearson (pairsAtLead f o g L) ∧
      (f.leadUnits ∈ allowedUnits ∧ o.freq = f.leadUnits →
        ∀ gr : Option Grouping, ∃ r,
          compute_skill { f with inits := i :: f.inits } o gr = .ok r) := by
  have hd := pairsAtLead_cons_miss f o i g L hmiss
  refine ⟨hd, by rw [hd], ?_⟩
  intro hunit gr
  have hunit' : ({ f with inits := i :: f.inits } : Forecast).leadUnits ∈
      allowedUnits ∧
      o.freq = ({ f with inits := i :: f.inits } : Forecast).leadUnits := hunit
  unfold compute_skill
  rw [if_pos hunit']
  cases gr with
  | none => exact ⟨_, rfl⟩
  | some g0 => cases g0; exact ⟨_, rfl⟩

/-- Witness for C5: initialization 5 has no observation at valid time 5. -/
theorem missing_obs_dropped_witness :
    lookupObs wObs4 (validTime 5 0) = none ∧
      (pairsAtLead { wFcst4 with inits := 5 :: wFcst4.inits } wObs4 none 0 =
          pairsAtLead wFcst4 wObs4 none 0 ∧
        pearson (pairsAtLead { wFcst4 with inits := 5 :: wFcst4.inits }
            wObs4 none 0) = pearson (pairsAtLead wFcst4 wObs4 none 0) ∧
        (wFcst4.leadUnits ∈ allowedUnits ∧ wObs4.freq = wFcst4.leadUnits →
          ∀ gr : Option Grouping, ∃ r,
            compute_skill { wFcst4 with inits := 5 :: wFcst4.inits }
              wObs4 gr = .ok r)) :=
  ⟨by norm_num [lookupObs, lookupTime, validTime, wObs4],
    missing_obs_dropped wFcst4 wObs4 5 none 0
      (by norm_num [lookupObs, lookupTime, validTime, wObs4])⟩

/-- C4: every lead (ungrouped) and every lead/month position (grouped)
whose own paired anomaly samples are degenerate — fewer than 2 paired
samples, or a zero-variance forecast or observation series — receives NaN
at that position while the skill computation still returns a result
rather than raising; each position is judged independently, so a
degenerate month bucket inside non-degenerate overall data still yields
NaN at its grouped position. -/
theorem degenerate_skill_nan (f : Forecast) (o : ObsSeries)
    (hunit : f.leadUnits ∈ allowedUnits ∧ o.freq = f.leadUnits)
    (L : ℕ) (hL : L < f.nLead) (m : ℕ) (hm : m < 12) :
    (Degenerate (pairsAtLead f o none L) →
      ∃ vals, compute_skill f o none = .ok (.ungrouped vals) ∧
        vals[L]? = some .nan) ∧
      (Degenerate (pairsAtLead f o (some (m + 1)) L) →
        ∃ rows, compute_skill f o (some .initMonth) = .ok (.grouped rows) ∧
          ∃ row, rows[m]? = some row ∧ row[L]? = some .nan) := by
  constructor
  · intro hdeg
    refine ⟨skillPerLead f o none, ?_, ?_⟩
    · unfold compute_skill
      rw [if_pos hunit]
    · unfold skillPerLead
      rw [List.getElem?_map, List.getElem?_range hL]
      simp [pearson_of_degenerate hdeg]
  · intro hdegm
    refine ⟨(List.range 12).map fun mm => skillPerLead f o (some (mm + 1)),
      ?_, ?_⟩
    · unfold compute_skill
      rw [if_pos hunit]
    · refine ⟨skillPerLead f o (some (m + 1)), ?_, ?_⟩
      · rw [List.getElem?_map, List.getElem?_range hm]
        rfl
      · unfold skillPerLead
        rw [List.getElem?_map, List.getElem?_range hL]
        simp [pearson_of_degenerate hdegm]

/-- Witness for C4 at the bucket-degeneracy scenario: initializations
0, 1, 13 with distinct values, so the ungrouped samples at lead 0 are not
degenerate while the month-1 bucket holds a single sample; the theorem
applies and its grouped implication produces the NaN at position
(month 1, lead 0). -/
theorem degenerate_skill_nan_witness :
    ((wFcst5.leadUnits ∈ allowedUnits ∧ wObs5.freq = wFcst5.leadUnits) ∧
      0 < wFcst5.nLead ∧ (0 : ℕ) < 12) ∧
      (Degenerate (pairsAtLead wFcst5 wObs5 (some 1) 0) ∧
        ¬ Degenerate (pairsAtLead wFcst5 wObs5 none 0)) ∧
      ((Degenerate (pairsAtLead wFcst5 wObs5 none 0) →
        ∃ vals, compute_skill wFcst5 wObs5 none = .ok (.ungrouped vals) ∧
          vals[0]? = some .nan) ∧
        (Degenerate (pairsAtLead wFcst5 wObs5 (some 1) 0) →
          ∃ rows, compute_skill wFcst5 wObs5 (some .initMonth) =
              .ok (.grouped rows) ∧
            ∃ row, rows[0]? = some row ∧ row[0]? = some .nan)) ∧
      ∃ rows, compute_skill wFcst5 wObs5 (some .initMonth) =
          .ok (.grouped rows) ∧
        ∃ row, rows[0]? = some row ∧ row[0]? = some .nan :=
  ⟨⟨⟨by simp [wFcst5, allowedUnits], by simp [wObs5, wFcst5]⟩,
      by norm_num [wFcst5], by norm_num⟩,
    ⟨wFcst5_month_degenerate, wFcst5_not_degenerate⟩,
    degenerate_skill_nan wFcst5 wObs5
      ⟨by simp [wFcst5, allowedUnits], by simp [wObs5, wFcst5]⟩
      0 (by norm_num [wFcst5]) 0 (by norm_num),
    (degenerate_skill_nan wFcst5 wObs5
      ⟨by simp [wFcst5, allowedUnits], by simp [wObs5, wFcst5]⟩
      0 (by norm_num [wFcst5]) 0 (by norm_num)).2
      wFcst5_month_degenerate⟩

/-- C3: grouping by initialization month on data containing all 12 months
yields a group axis of size 12 whose entry for month m equals the
ungrouped skill computed over only the initializations of month m, each
entry itself NaN or a correlation in [-1, 1]. -/
theorem grouped_by_month (f : Forecast) (o : ObsSeries)
    (hunit : f.leadUnits ∈ allowedUnits ∧ o.freq = f.leadUnits)
    (hall : ∀ m < 12, ∃ i ∈ f.inits, monthOf i = m + 1) :
    ∃ rows, compute_skill f o (some .initMonth) = .ok (.grouped rows) ∧
      rows.length = 12 ∧
      (∀ m < 12, ∃ vals,
        compute_skill (restrictToMonth f (m + 1)) o none =
            .ok (.ungrouped vals) ∧
          rows[m]? = some vals) ∧
      ∀ row ∈ rows, ∀ v ∈ row, v = .nan ∨ ∃ num den, v = .corr num den ∧
        0 < den ∧ (num : ℝ) / Real.sqrt (den : ℝ) ∈ Set.Icc (-1 : ℝ) 1 := by
  refine ⟨(List.range 12).map fun m => skillPerLead f o (some (m + 1)),
    ?_, by simp, ?_, ?_⟩
  · unfold compute_skill
    rw [if_pos hunit]
  · intro m hm
    refine ⟨skillPerLead f o (some (m + 1)), ?_, ?_⟩
    · have hunit' : (restrictToMonth f (m + 1)).leadUnits ∈ allowedUnits ∧
          o.freq = (restrictToMonth f (m + 1)).leadUnits := hunit
      unfold compute_skill
      rw [if_pos hunit', ← skillPerLead_restrict]
    · rw [List.getElem?_map, List.getElem?_range hm]
      rfl
  · intro row hrow v hv
    simp only [List.mem_map, List.mem_range] at hrow
    obtain ⟨m, hm, rfl⟩ := hrow
    simp only [skillPerLead, List.mem_map, List.mem_range] at hv
    obtain ⟨L, hL, rfl⟩ := hv
    exact pearson_nan_or_bounded _

/-- Witness for C3 at a 12-initialization monthly input covering all 12
months. -/
theorem grouped_by_month_witness :
    ((wFcst3.leadUnits ∈ allowedUnits ∧ wObs3.freq = wFcst3.leadUnits) ∧
      ∀ m < 12, ∃ i ∈ wFcst3.inits, monthOf i = m + 1) ∧
      ∃ rows, compute_skill wFcst3 wObs3 (some .initMonth) =
          .ok (.grouped rows) ∧
        rows.length = 12 ∧
        (∀ m < 12, ∃ vals,
          compute_skill (restrictToMonth wFcst3 (m + 1)) wObs3 none =
              .ok (.ungrouped vals) ∧
            rows[m]? = some vals) ∧
        ∀ row ∈ rows, ∀ v ∈ row, v = .nan ∨ ∃ num den, v = .corr num den ∧
          0 < den ∧ (num : ℝ) / Real.sqrt (den : ℝ) ∈ Set.Icc (-1 : ℝ) 1 :=
  ⟨⟨⟨by simp [wFcst3, allowedUnits], by simp [wObs3, wFcst3]⟩,
      by decide⟩,
    grouped_by_month wFcst3 wObs3
      ⟨by simp [wFcst3, allowedUnits], by simp [wObs3, wFcst3]⟩
      (by decide)⟩

/-- C2: when the (member-averaged) forecast anomalies are identical to the
observation anomalies at every valid time, with at least 2 paired samples
of nonzero variance per lead, the skill computation returns exactly 1 at
every lead. -/
theorem perfect_forecast_skill_one (f : Forecast) (o : ObsSeries)
    (hunit : f.leadUnits ∈ allowedUnits ∧ o.freq = f.leadUnits)
    (h : ∀ L < f.nLead, (∀ p ∈ pairsAtLead f o none L, p.1 = p.2) ∧
      2 ≤ (pairsAtLead f o none L).length ∧
      ∃ p ∈ pairsAtLead f o none L,
        ∃ q ∈ pairsAtLead f o none L, p.1 ≠ q.1) :
    ∃ vals, compute_skill f o none = .ok (.ungrouped vals) ∧
      vals.length = f.nLead ∧
      ∀ v ∈ vals, ∃ num den, v = .corr num den ∧ 0 < num ∧ num ^ 2 = den ∧
        (num : ℝ) / Real.sqrt (den : ℝ) = 1 := by
  refine ⟨skillPerLead f o none, ?_, by simp [skillPerLead], ?_⟩
  · unfold compute_skill
    rw [if_pos hunit]
  · intro v hv
    simp only [skillPerLead, List.mem_map, List.mem_range] at hv
    obtain ⟨L, hL, rfl⟩ := hv
    obtain ⟨heq, h2, hne⟩ := h L hL
    obtain ⟨hpe, hpos⟩ := pearson_of_eq h2 heq hne
    exact ⟨sxx _, sxx _ * sxx _, hpe, hpos, by ring,
      corrValue_eq_one hpos (by ring)⟩

/-- Witness for C2: the concrete scenario of the claim — leads 0, 1, 2 in
days, 30 initializations, a 40-point daily observation series, forecast
value equal to the observation at the valid time — yields skill exactly 1
at each of the three leads. -/
theorem perfect_forecast_skill_one_witness :
    ((wFcst2.leadUnits ∈ allowedUnits ∧ wObs2.freq = wFcst2.leadUnits) ∧
      ∀ L < wFcst2.nLead,
        (∀ p ∈ pairsAtLead wFcst2 wObs2 none L, p.1 = p.2) ∧
          2 ≤ (pairsAtLead wFcst2 wObs2 none L).length ∧
          ∃ p ∈ pairsAtLead wFcst2 wObs2 none L,
            ∃ q ∈ pairsAtLead wFcst2 wObs2 none L, p.1 ≠ q.1) ∧
      ∃ vals, compute_skill wFcst2 wObs2 none = .ok (.ungrouped vals) ∧
        vals.length = wFcst2.nLead ∧
        ∀ v ∈ vals, ∃ num den, v = .corr num den ∧ 0 < num ∧
          num ^ 2 = den ∧ (num : ℝ) / Real.sqrt (den : ℝ) = 1 :=
  ⟨⟨⟨by simp [wFcst2, allowedUnits], by simp [wObs2, wFcst2]⟩, wFcst2_hyp⟩,
    perfect_forecast_skill_one wFcst2 wObs2
      ⟨by simp [wFcst2, allowedUnits], by simp [wObs2, wFcst2]⟩ wFcst2_hyp⟩

/-- C6: when the (member-averaged) forecast anomalies are exactly the
negation of the observation anomalies at every valid time, with at least 2
paired samples of nonzero variance per lead, the skill computation returns
exactly -1 at every lead. -/
theorem negated_forecast_skill_negOne (f : Forecast) (o : ObsSeries)
    (hunit : f.leadUnits ∈ allowedUnits ∧ o.freq = f.leadUnits)
    (h : ∀ L < f.nLead, (∀ p ∈ pairsAtLead f o none L, p.2 = -p.1) ∧
      2 ≤ (pairsAtLead f o none L).length ∧
      ∃ p ∈ pairsAtLead f o none L,
        ∃ q ∈ pairsAtLead f o none L, p.1 ≠ q.1) :
    ∃ vals, compute_skill f o none = .ok (.ungrouped vals) ∧
      vals.length = f.nLead ∧
      ∀ v ∈ vals, ∃ num den, v = .corr num den ∧ num < 0 ∧ num ^ 2 = den ∧
        (num : ℝ) / Real.sqrt (den : ℝ) = -1 := by
  refine ⟨skillPerLead f o none, ?_, by simp [skillPerLead], ?_⟩
  · unfold compute_skill
    rw [if_pos hunit]
  · intro v hv
    simp only [skillPerLead, List.mem_map, List.mem_range] at hv
    obtain ⟨L, hL, rfl⟩ := hv
    obtain ⟨hneg, h2, hne⟩ := h L hL
    obtain ⟨hpe, hpos⟩ := pearson_of_neg h2 hneg hne
    exact ⟨-(sxx _), sxx _ * sxx _, hpe, by linarith, by ring,
      corrValue_eq_negOne hpos (by ring)⟩

/-- Witness for C6: the negated concrete scenario — forecast value equal
to the negated observation at the valid time — yields skill exactly -1 at
each of the three leads. -/
theorem negated_forecast_skill_negOne_witness :
    ((wFcst6.leadUnits ∈ allowedUnits ∧ wObs2.freq = wFcst6.leadUnits) ∧
      ∀ L < wFcst6.nLead,
        (∀ p ∈ pairsAtLead wFcst6 wObs2 none L, p.2 = -p.1) ∧
          2 ≤ (pairsAtLead wFcst6 wObs2 none L).length ∧
          ∃ p ∈ pairsAtLead wFcst6 wObs2 none L,
            ∃ q ∈ pairsAtLead wFcst6 wObs2 none L, p.1 ≠ q.1) ∧
      ∃ vals, compute_skill wFcst6 wObs2 none = .ok (.ungrouped vals) ∧
        vals.length = wFcst6.nLead ∧
        ∀ v ∈ vals, ∃ num den, v = .corr num den ∧ num < 0 ∧
          num ^ 2 = den ∧ (num : ℝ) / Real.sqrt (den : ℝ) = -1 :=
  ⟨⟨⟨by simp [wFcst6, allowedUnits], by simp [wObs2, wFcst6]⟩, wFcst6_hyp⟩,
    negated_forecast_skill_negOne wFcst6 wObs2
      ⟨by simp [wFcst6, allowedUnits], by simp [wObs2, wFcst6]⟩ wFcst6_hyp⟩

/-- C8: the lead relabeling (lead - 0.5) cast to int maps every lead value
k + 0.5 (k a non-negative integer) to exactly k; applied to the source
data's leads 0.5, 1.5, 2.5, ... it produces the non-negative integer leads
0, 1, ..., n - 1: starting at zero, monotonically increasing and
contiguous. -/
theorem lead_relabeling :
    (∀ k : ℕ, relabelLead ((k : ℚ) + 1 / 2) = (k : ℤ)) ∧
      ∀ n : ℕ, (sourceLeads n).map relabelLead =
        (List.range n).map fun k : ℕ => (k : ℤ) := by
  have hpt : ∀ k : ℕ, relabelLead ((k : ℚ) + 1 / 2) = (k : ℤ) := by
    intro k
    unfold relabelLead truncToInt
    have hx : ((k : ℚ) + 1 / 2 - 1 / 2) = (k : ℚ) := by ring
    rw [hx, if_pos (by positivity)]
    exact Int.floor_natCast k
  refine ⟨hpt, fun n => ?_⟩
  unfold sourceLeads
  rw [List.map_map]
  apply List.map_congr_left
  intro k _
  simp only [Function.comp_apply]
  exact hpt k

/-- C9: in the seasonal pipeline, the centered 3-point rolling mean
followed by dropping NaN entries removes exactly the first and the last
index of the rolled axis: an input axis of length n >= 3 yields an output
axis of length n - 2 whose j-th surviving value is the mean of the element
at position j + 1 and its two neighbours; the every-3rd-element
subsampling is then relabeled with contiguous integer leads
0 .. nleads - 1. -/
theorem seasonal_rolling (xs : List ℚ) (h3 : 3 ≤ xs.length) :
    (seasonalSeries xs).length = xs.length - 2 ∧
      (∀ j < xs.length - 2, (seasonalSeries xs)[j]? =
        some ((xs.getD j 0 + xs.getD (j + 1) 0 + xs.getD (j + 2) 0) / 3)) ∧
      (mkSeasonalFcst xs).leadCoord =
        List.range (mkSeasonalFcst xs).data.length ∧
      (mkSeasonalFcst xs).data.length = xs.length / 3 ∧
      ∀ j < (mkSeasonalFcst xs).data.length,
        (mkSeasonalFcst xs).leadCoord[j]? = some j := by
  have hs := seasonalSeries_eq xs h3
  have hlen : (seasonalSeries xs).length = xs.length - 2 := by
    rw [hs, List.length_map, List.length_range]
  refine ⟨hlen, ?_, rfl, ?_, ?_⟩
  · intro j hj
    rw [hs, List.getElem?_map, List.getElem?_range hj]
    rfl
  · show (everyThird (seasonalSeries xs)).length = xs.length / 3
    rw [length_everyThird, hlen]
    omega
  · intro j hj
    exact List.getElem?_range hj

/-- Witness for C9 at the concrete 5-point series [0, 3, 6, 9, 12]. -/
theorem seasonal_rolling_witness :
    3 ≤ ([0, 3, 6, 9, 12] : List ℚ).length ∧
      ((seasonalSeries [0, 3, 6, 9, 12]).length =
          ([0, 3, 6, 9, 12] : List ℚ).length - 2 ∧
        (∀ j < ([0, 3, 6, 9, 12] : List ℚ).length - 2,
          (seasonalSeries [0, 3, 6, 9, 12])[j]? =
            some ((([0, 3, 6, 9, 12] : List ℚ).getD j 0 +
              ([0, 3, 6, 9, 12] : List ℚ).getD (j + 1) 0 +
              ([0, 3, 6, 9, 12] : List ℚ).getD (j + 2) 0) / 3)) ∧
        (mkSeasonalFcst [0, 3, 6, 9, 12]).leadCoord =
          List.range (mkSeasonalFcst [0, 3, 6, 9, 12]).data.length ∧
        (mkSeasonalFcst [0, 3, 6, 9, 12]).data.length =
          ([0, 3, 6, 9, 12] : List ℚ).length / 3 ∧
        ∀ j < (mkSeasonalFcst [0, 3, 6, 9, 12]).data.length,
          (mkSeasonalFcst [0, 3, 6, 9, 12]).leadCoord[j]? = some j) :=
  ⟨by norm_num, seasonal_rolling [0, 3, 6, 9, 12] (by norm_num)⟩

/-- C10: decode_cf rewrites the time variable's calendar attribute to
"360_day" exactly when it equals "360", leaving every other calendar value
and all other dataset fields unchanged before the external time decoding
runs; when the time variable has no calendar attribute at all, decode_cf
fails on the attribute lookup and the decoding step never runs. -/
theorem decode_cf_calendar_fix (ds : Dataset) (time_var : String) (v : Var)
    (hv : getVar ds time_var = some v) :
    (v.attrs.lookup "calendar" = some "360" →
      ∃ ds', fixCalendar ds time_var = .ok ds' ∧
        (∀ dec : Dataset → Dataset,
          decode_cf dec ds time_var = .ok (dec ds')) ∧
        (∀ name, name ≠ time_var → getVar ds' name = getVar ds name) ∧
        ∃ v', getVar ds' time_var = some v' ∧ v'.data = v.data ∧
          v'.attrs.lookup "calendar" = some "360_day" ∧
          ∀ key, key ≠ "calendar" →
            v'.attrs.lookup key = v.attrs.lookup key) ∧
      (∀ cal, v.attrs.lookup "calendar" = some cal → cal ≠ "360" →
        fixCalendar ds time_var = .ok ds ∧
        ∀ dec : Dataset → Dataset, decode_cf dec ds time_var = .ok (dec ds)) ∧
      (v.attrs.lookup "calendar" = none →
        ∀ dec : Dataset → Dataset,
          decode_cf dec ds time_var = .error .keyError) := by
  refine ⟨?_, ?_, ?_⟩
  · intro h360
    refine ⟨setVarAttr ds time_var "calendar" "360_day", ?_, ?_, ?_, ?_⟩
    · simp [fixCalendar, hv, h360]
    · intro dec
      simp [decode_cf, fixCalendar, hv, h360, Except.map]
    · intro name hname
      have hg := lookup_map_keydep ds.vars
        (fun s w => if s = time_var then
          { w with attrs := w.attrs.map fun a =>
              (a.1, if a.1 = "calendar" then "360_day" else a.2) }
          else w) name
      unfold getVar setVarAttr
      rw [hg]
      cases getVar ds name with
      | none =>
        unfold getVar at *
        simp_all
      | some w =>
        unfold getVar at *
        simp_all
    · refine ⟨{ v with attrs := v.attrs.map fun a =>
          (a.1, if a.1 = "calendar" then "360_day" else a.2) }, ?_, rfl,
          ?_, ?_⟩
      · have hg := lookup_map_keydep ds.vars
          (fun s w => if s = time_var then
            { w with attrs := w.attrs.map fun a =>
                (a.1, if a.1 = "calendar" then "360_day" else a.2) }
            else w) time_var
        unfold getVar setVarAttr
        rw [hg]
        unfold getVar at hv
        rw [hv]
        simp
      · have ha := lookup_map_keydep v.attrs
          (fun s val => if s = "calendar" then "360_day" else val) "calendar"
        simp only at ha
        rw [ha, h360]
        simp
      · intro key hkey
        have ha := lookup_map_keydep v.attrs
          (fun s val => if s = "calendar" then "360_day" else val) key
        simp only at ha
        rw [ha]
        cases v.attrs.lookup key with
        | none => rfl
        | some val => simp [hkey]
  · intro cal hcal hne
    constructor
    · simp [fixCalendar, hv, hcal, hne]
    · intro dec
      simp [decode_cf, fixCalendar, hv, hcal, hne, Except.map]
  · intro hnone
    intro dec
    simp [decode_cf, fixCalendar, hv, hnone, Except.map]

/-- Witness for C10 at a two-variable dataset whose time variable carries
the calendar attribute "360". -/
theorem decode_cf_calendar_fix_witness :
    getVar wDs "S" = some wVarT ∧
      ((wVarT.attrs.lookup "calendar" = some "360" →
        ∃ ds', fixCalendar wDs "S" = .ok ds' ∧
          (∀ dec : Dataset → Dataset,
            decode_cf dec wDs "S" = .ok (dec ds')) ∧
          (∀ name, name ≠ "S" → getVar ds' name = getVar wDs name) ∧
          ∃ v', getVar ds' "S" = some v' ∧ v'.data = wVarT.data ∧
            v'.attrs.lookup "calendar" = some "360_day" ∧
            ∀ key, key ≠ "calendar" →
              v'.attrs.lookup key = wVarT.attrs.lookup key) ∧
        (∀ cal, wVarT.attrs.lookup "calendar" = some cal → cal ≠ "360" →
          fixCalendar wDs "S" = .ok wDs ∧
          ∀ dec : Dataset → Dataset, decode_cf dec wDs "S" = .ok (dec wDs)) ∧
        (wVarT.attrs.lookup "calendar" = none →
          ∀ dec : Dataset → Dataset,
            decode_cf dec wDs "S" = .error .keyError)) :=
  ⟨rfl, decode_cf_calendar_fix wDs "S" wVarT rfl⟩

end ClimpredWorkshop
